import Mathlib

/-!
Shallow embedding of the `logestic` library (an ElysiaJS request-logging
middleware) in Lean 4, together with theorems checking its natural-language
specification against the code.

Sources embedded:
  * `src/index.ts`  — the `Logestic` class: constructor, `setDest`, `use`,
    the three lifecycle hooks installed by `format`, the private `log`
    writer, and the explicit entry points `info`/`warn`/`debug`/`error`.
  * `src/utils.ts`  — `buildAttrs`, `colourLogType`, `removeAnsi`.

Side effects are made explicit: a logging operation returns the list of
write events it performs (a `Bun.write` to a standard stream, or an
`fs.appendFile` to a named file).  The two clock reads performed during
attribute extraction (`process.hrtime.bigint()` and `new Date()`) are passed
in as an explicit `Clock` value.  JavaScript-specific semantics that the
code relies on (truthiness of `||`, `Number(null) = 0`, BigInt truncated
division, `String.prototype.trimStart`) are modelled by dedicated
definitions named `js...`.
-/

/-- The escape character `\u001b` (ESC) that starts an ANSI colour sequence. -/
def escChar : Char := Char.ofNat 27

/-- JavaScript whitespace recognised by `String.prototype.trimStart`
(space, tab, LF, VT, FF, CR, NBSP; the remaining exotic Unicode space
code points are not produced by this library). -/
def jsWhitespace (c : Char) : Bool :=
  c == ' ' || c == '\t' || c == '\n' || c == Char.ofNat 11 ||
  c == Char.ofNat 12 || c == '\r' || c == Char.ofNat 160

/-- Tries to match the regular expression `\u001b\[\d*m` at the head of the
character list; on success returns the characters after the match
(`removeAnsi` in `src/utils.ts` replaces every such match with the empty
string). -/
def matchAnsi (l : List Char) : Option (List Char) :=
  match l with
  | c1 :: c2 :: rest =>
    if c1 = escChar ∧ c2 = '[' then
      match rest.dropWhile Char.isDigit with
      | c3 :: rest2 => if c3 = 'm' then some rest2 else none
      | [] => none
    else none
  | _ => none

theorem dropWhile_length_le (p : α → Bool) (l : List α) :
    (l.dropWhile p).length ≤ l.length := by
  induction l with
  | nil => simp
  | cons a l ih =>
    simp only [List.dropWhile]
    split
    · exact Nat.le_trans ih (Nat.le_succ _)
    · simp

theorem matchAnsi_length {l r : List Char} (h : matchAnsi l = some r) :
    r.length < l.length := by
  match l with
  | [] => simp [matchAnsi] at h
  | [c1] => simp [matchAnsi] at h
  | c1 :: c2 :: rest =>
    simp only [matchAnsi] at h
    split at h
    · have hd : (rest.dropWhile Char.isDigit).length ≤ rest.length :=
        dropWhile_length_le _ _
      cases hdw : rest.dropWhile Char.isDigit with
      | nil => rw [hdw] at h; cases h
      | cons d ds =>
        rw [hdw] at h
        rw [hdw] at hd
        dsimp only at h
        by_cases hm : d = 'm'
        · rw [if_pos hm] at h
          cases h
          simp only [List.length_cons] at hd ⊢
          omega
        · rw [if_neg hm] at h
          cases h
    · cases h

/-- Fuelled scanner for the global regex replace; the fuel is an upper
bound on the remaining length, so it is never exhausted in `stripAnsi`. -/
def stripAnsiFuel (fuel : Nat) (l : List Char) : List Char :=
  match fuel with
  | 0 => l
  | fuel + 1 =>
    match matchAnsi l with
    | some rest => stripAnsiFuel fuel rest
    | none =>
      match l with
      | [] => []
      | c :: cs => c :: stripAnsiFuel fuel cs

/-- One global pass of `text.replace(/\u001b\[\d*m/g, "")`: scan left to
right, deleting every non-overlapping match of `ESC [ digits* m`. -/
def stripAnsi (l : List Char) : List Char :=
  stripAnsiFuel l.length l

theorem stripAnsiFuel_nil (f : Nat) : stripAnsiFuel f [] = [] := by
  cases f <;> simp [stripAnsiFuel, matchAnsi]

theorem stripAnsiFuel_irrel :
    ∀ (f1 f2 : Nat) (l : List Char), l.length ≤ f1 → l.length ≤ f2 →
      stripAnsiFuel f1 l = stripAnsiFuel f2 l := by
  intro f1
  induction f1 with
  | zero =>
    intro f2 l h1 _
    have : l = [] := List.length_eq_zero.mp (Nat.le_zero.mp h1)
    subst this
    rw [stripAnsiFuel_nil, stripAnsiFuel_nil]
  | succ f ih =>
    intro f2 l h1 h2
    cases f2 with
    | zero =>
      have : l = [] := List.length_eq_zero.mp (Nat.le_zero.mp h2)
      subst this
      rw [stripAnsiFuel_nil, stripAnsiFuel_nil]
    | succ f2 =>
      simp only [stripAnsiFuel]
      cases hm : matchAnsi l with
      | some rest =>
        have hlt := matchAnsi_length hm
        exact ih f2 rest (by omega) (by omega)
      | none =>
        cases l with
        | nil => rfl
        | cons c cs =>
          simp only [List.length_cons] at h1 h2
          dsimp only
          exact congrArg (c :: ·) (ih f2 cs (by omega) (by omega))

/-- Skipping a matched ANSI sequence. -/
theorem stripAnsi_match {l r : List Char} (hm : matchAnsi l = some r) :
    stripAnsi l = stripAnsi r := by
  have hlt := matchAnsi_length hm
  unfold stripAnsi
  cases hl : l.length with
  | zero => omega
  | succ n =>
    rw [hl] at hlt
    simp only [stripAnsiFuel, hm]
    exact stripAnsiFuel_irrel n r.length r (by omega) (by omega)

theorem matchAnsi_cons_ne {c : Char} (hc : c ≠ escChar) (l : List Char) :
    matchAnsi (c :: l) = none := by
  cases l with
  | nil => rfl
  | cons c2 cs => simp [matchAnsi, hc]

/-- A character that does not start an ANSI sequence is copied through. -/
theorem stripAnsi_cons_ne {c : Char} (hc : c ≠ escChar) (l : List Char) :
    stripAnsi (c :: l) = c :: stripAnsi l := by
  unfold stripAnsi
  simp only [List.length_cons, stripAnsiFuel, matchAnsi_cons_ne hc]

/-- A string free of the escape character passes through `stripAnsi`
unchanged, and anything appended after it is scanned independently. -/
theorem stripAnsi_append_of_no_esc :
    ∀ {s : List Char}, escChar ∉ s → ∀ t, stripAnsi (s ++ t) = s ++ stripAnsi t := by
  intro s
  induction s with
  | nil => intro _ t; simp
  | cons c cs ih =>
    intro hs t
    have hc : c ≠ escChar := by
      intro h; exact hs (by simp [h])
    have hcs : escChar ∉ cs := fun h => hs (List.mem_cons_of_mem _ h)
    simp only [List.cons_append, stripAnsi_cons_ne hc, ih hcs]

theorem stripAnsi_nil : stripAnsi [] = [] := rfl

/-- `stripAnsi` of an escape-free list is the list itself. -/
theorem stripAnsi_of_no_esc {s : List Char} (hs : escChar ∉ s) :
    stripAnsi s = s := by
  have := stripAnsi_append_of_no_esc hs []
  simpa [stripAnsi_nil] using this

/-- `removeAnsi` from `src/utils.ts`:
`text.replace(/\u001b\[\d*m/g, "").trimStart()`. -/
def removeAnsi (text : String) : String :=
  ⟨(stripAnsi text.data).dropWhile jsWhitespace⟩

/-! ## JavaScript numeric conversion (`Number(...)`) -/

/-- A JavaScript number as produced by `Number(...)` on a header value:
either NaN, a signed infinity, or a finite (rational) value. -/
inductive JsNum where
  | nan
  | infinity (neg : Bool)
  | num (q : ℚ)
deriving DecidableEq, Repr

/-- Fold a digit list into a natural number. -/
def digitsToNat (ds : List Char) : Nat :=
  ds.foldl (fun n c => 10 * n + (c.toNat - 48)) 0

/-- Parse the optional exponent tail of a JS decimal literal
(`ExponentPart?`); `some e` when the remaining characters are empty or a
well-formed exponent. -/
def parseExpTail (l : List Char) : Option Int :=
  match l with
  | [] => some 0
  | c :: rest =>
    if c = 'e' ∨ c = 'E' then
      match rest with
      | '+' :: ds =>
        if ds ≠ [] ∧ ds.all Char.isDigit then some (digitsToNat ds) else none
      | '-' :: ds =>
        if ds ≠ [] ∧ ds.all Char.isDigit then some (-(digitsToNat ds : Int)) else none
      | ds =>
        if ds ≠ [] ∧ ds.all Char.isDigit then some (digitsToNat ds) else none
    else none

/-- Value of a decimal literal with integer digits `ip`, fraction digits
`fp` and exponent `e`. -/
def decValue (ip fp : List Char) (e : Int) : ℚ :=
  ((digitsToNat ip : ℚ) + (digitsToNat fp : ℚ) / (10 : ℚ) ^ fp.length) * (10 : ℚ) ^ e

/-- Parse an unsigned JS decimal literal (`digits [. digits] [exp]`,
at least one digit). -/
def parseDecLiteral (l : List Char) : Option ℚ :=
  let intDigits := l.takeWhile Char.isDigit
  let r1 := l.dropWhile Char.isDigit
  match r1 with
  | '.' :: r2 =>
    let fracDigits := r2.takeWhile Char.isDigit
    let r3 := r2.dropWhile Char.isDigit
    if intDigits = [] ∧ fracDigits = [] then none
    else (parseExpTail r3).map (decValue intDigits fracDigits)
  | _ =>
    if intDigits = [] then none
    else (parseExpTail r1).map (decValue intDigits [])

/-- Modelled from the ECMAScript `StringToNumber` conversion as used by
`Number(string)`: trims whitespace, the empty remainder is `0`, an optional
sign followed by `Infinity` or a decimal literal gives a value, anything
else is NaN.  (The non-decimal literal forms `0x`/`0o`/`0b`, irrelevant to
HTTP header values, are treated as NaN by this model.) -/
def jsStringToNumber (s : String) : JsNum :=
  let t := ((s.data.dropWhile jsWhitespace).reverse.dropWhile jsWhitespace).reverse
  if t = [] then .num 0
  else
    let signBody : Bool × List Char :=
      match t with
      | '-' :: r => (true, r)
      | '+' :: r => (false, r)
      | r => (false, r)
    let neg := signBody.1
    let body := signBody.2
    if body = "Infinity".data then .infinity neg
    else
      match parseDecLiteral body with
      | some q => .num (if neg then -q else q)
      | none => .nan

/-- `Number(x)` applied to the result of `headers.get(name)`:
`Number(null)` is `0`, otherwise the string conversion. -/
def jsNumber (o : Option String) : JsNum :=
  match o with
  | none => .num 0
  | some s => jsStringToNumber s

/-- JavaScript `a || b` for an optional boolean option field: the result is
`a` when `a` is truthy (that is, the option is present and `true`),
otherwise `b`. -/
def jsOrBool (o : Option Bool) (b : Bool) : Bool :=
  match o with
  | some true => true
  | _ => b

/-- JavaScript `a || b` for a nullable string (`headers.get(...) || b`):
`null` and the empty string are falsy, so both select `b`. -/
def jsOrStr (o : Option String) (b : String) : String :=
  match o with
  | some s => if s = "" then b else s
  | none => b

/-! ## chalk colour model and `colourLogType` -/

/-- The five log types of `src/types.ts` (`LogType`). -/
inductive LogType where
  | http
  | info
  | warn
  | debug
  | error
deriving DecidableEq, Repr

/-- Upper-cased name of a log type (`type.toUpperCase()`). -/
def LogType.toUpperCase : LogType → String
  | .http => "HTTP"
  | .info => "INFO"
  | .warn => "WARN"
  | .debug => "DEBUG"
  | .error => "ERROR"

/-- `LogLevelColour` from `src/types.ts`: an optional hex colour string per
log type. -/
structure LogLevelColour where
  http : Option String := none
  info : Option String := none
  warn : Option String := none
  debug : Option String := none
  error : Option String := none
deriving DecidableEq, Repr

/-- `colourDef[type]` lookup. -/
def LogLevelColour.get (cd : LogLevelColour) : LogType → Option String
  | .http => cd.http
  | .info => cd.info
  | .warn => cd.warn
  | .debug => cd.debug
  | .error => cd.error

/-- Value of a hexadecimal digit, if any. -/
def hexDigitVal (c : Char) : Option Nat :=
  if '0' ≤ c ∧ c ≤ '9' then some (c.toNat - 48)
  else if 'a' ≤ c ∧ c ≤ 'f' then some (c.toNat - 87)
  else if 'A' ≤ c ∧ c ≤ 'F' then some (c.toNat - 70)
  else none

/-- Modelled from chalk's hex-to-RGB conversion (external dependency):
accepts `#RRGGBB` (`#` optional); the `RGB` shorthand and invalid strings
yield `none` in this model since the library only passes colours through
verbatim. -/
def hexToRgb (s : String) : Option (Nat × Nat × Nat) :=
  let body := match s.data with
    | '#' :: r => r
    | r => r
  match body.mapM hexDigitVal with
  | some [r1, r2, g1, g2, b1, b2] =>
    some (16 * r1 + r2, 16 * g1 + g2, 16 * b1 + b2)
  | _ => none

/-- ANSI open sequence `ESC [ code m`. -/
def ansiCode (code : String) : String :=
  String.singleton escChar ++ "[" ++ code ++ "m"

/-- Modelled from chalk at full (24-bit) colour support:
`chalk.hex(colour)(s)` wraps `s` in the truecolor foreground open sequence
`ESC[38;2;r;g;bm` and the close sequence `ESC[39m`; an unparseable colour
applies no styling. -/
def chalkHex (colour : String) (s : String) : String :=
  match hexToRgb colour with
  | some (r, g, b) =>
    ansiCode ("38;2;" ++ toString r ++ ";" ++ toString g ++ ";" ++ toString b)
      ++ s ++ ansiCode "39"
  | none => s

/-- Modelled from chalk: a basic background style (e.g. `chalk.bgBlue`)
wraps the string in `ESC[<open>m` and the background close code
`ESC[49m`. -/
def chalkBg (open_ : Nat) (s : String) : String :=
  ansiCode (toString open_) ++ s ++ ansiCode "49"

/-- The default background style per log type in `colourLogType`
(`bgBlue`, `bgGreen`, `bgYellow`, `bgCyan`, `bgRed`). -/
def defaultBgCode : LogType → Nat
  | .http => 44
  | .info => 42
  | .warn => 43
  | .debug => 46
  | .error => 41

/-- `colourLogType` from `src/utils.ts`: picks
`(colourDef[type] && chalk.hex(colourDef[type]!)) || <default bg colour>`
and applies it to the padded upper-cased type name.  An overriding colour
string is used when truthy (present and non-empty). -/
def colourLogType (type_ : LogType) (colourDef : LogLevelColour) : String :=
  let withSpaces := " " ++ type_.toUpperCase ++ " "
  match colourDef.get type_ with
  | some c => if c = "" then chalkBg (defaultBgCode type_) withSpaces
              else chalkHex c withSpaces
  | none => chalkBg (defaultBgCode type_) withSpaces

/-! ## Attribute keys, request context, and `buildAttrs` -/

/-- The keys of the `Attribute` type (`src/types.ts`), which are exactly
the cases of the `switch` in `buildAttrs`. -/
inductive AttrKey where
  | ip
  | method
  | path
  | body
  | query
  | time
  | contentLength
  | status
  | referer
  | userAgent
  | duration
deriving DecidableEq, Repr

/-- The value stored for an attribute key; heterogeneous across keys.
`body` and `query` are passed through from the context unchanged, so they
are carried as payloads. -/
inductive AttrValue where
  | str (s : String)
  | num (n : JsNum)
  | bigint (i : Int)
  | date (t : Int)
  | jsBody (b : String)
  | jsQuery (q : List (String × String))
  | statusVal (v : Option Nat)
deriving DecidableEq, Repr

/-- `set.status` on the Elysia context: absent, a number, or a status
keyword string. -/
inductive SetStatus where
  | undef
  | num (n : Nat)
  | strKey (s : String)
deriving DecidableEq, Repr

/-- JavaScript truthiness of `set.status` (the `if (!set.status) break;`
test): `undefined`, `0` and `""` are falsy. -/
def SetStatus.truthy : SetStatus → Bool
  | .undef => false
  | .num n => n ≠ 0
  | .strKey s => s ≠ ""

/-- Modelled from Elysia's `StatusMap` (external dependency): maps status
keyword strings to their numeric codes; a missing key yields `undefined`.
Only representative entries are listed. -/
def StatusMap (s : String) : Option Nat :=
  if s = "Continue" then some 100
  else if s = "OK" then some 200
  else if s = "Created" then some 201
  else if s = "No Content" then some 204
  else if s = "Moved Permanently" then some 301
  else if s = "Bad Request" then some 400
  else if s = "Unauthorized" then some 401
  else if s = "Not Found" then some 404
  else if s = "Internal Server Error" then some 500
  else none

/-- The numeric status recorded by the `status` case:
`typeof set.status === "number" ? set.status : StatusMap[set.status]`. -/
def SetStatus.value : SetStatus → Option Nat
  | .undef => none
  | .num n => some n
  | .strKey s => StatusMap s

/-- The part of the framework `Request` read by the library: the method
and the header map (`headers.get` returns `null` for a missing header). -/
structure RequestModel where
  headersGet : String → Option String
  method : String

/-- The part of the Elysia handler context destructured by `buildAttrs`:
`{ request, path, body, query, set }`. -/
structure ContextModel where
  request : RequestModel
  path : String
  body : String
  query : List (String × String)
  setStatus : SetStatus

/-- The two clock reads that `buildAttrs` can perform:
`process.hrtime.bigint()` (nanoseconds) and `new Date()`. -/
structure Clock where
  hrtimeNow : Int
  dateNow : Int

/-- The attribute set under construction: a JavaScript object, modelled as
an association list in key insertion order. -/
abbrev AttrMap := List (AttrKey × AttrValue)

/-- JavaScript property assignment `attrs[k] = v`: overwrites in place when
the key exists, appends otherwise. -/
def setAttr (m : AttrMap) (k : AttrKey) (v : AttrValue) : AttrMap :=
  if m.any (fun p => p.1 = k) then
    m.map (fun p => if p.1 = k then (k, v) else p)
  else
    m ++ [(k, v)]

/-- Property read `attrs[k]`. -/
def getAttr (m : AttrMap) (k : AttrKey) : Option AttrValue :=
  match m with
  | [] => none
  | p :: rest => if p.1 = k then some p.2 else getAttr rest k

/-- The keys of the attribute set. -/
def attrKeys (m : AttrMap) : List AttrKey := m.map Prod.fst

/-- One iteration of the `for (const key of reqAttrs)` loop in
`buildAttrs`: the `switch` over the requested key. -/
def buildAttrsStep (ctx : ContextModel) (timeStart : Int) (clock : Clock)
    (attrs : AttrMap) (k : AttrKey) : AttrMap :=
  match k with
  | .ip =>
    setAttr attrs .ip (.str (jsOrStr (ctx.request.headersGet "x-forwarded-for") "<ip?>"))
  | .method => setAttr attrs .method (.str ctx.request.method)
  | .path => setAttr attrs .path (.str ctx.path)
  | .body => setAttr attrs .body (.jsBody ctx.body)
  | .query => setAttr attrs .query (.jsQuery ctx.query)
  | .time => setAttr attrs .time (.date clock.dateNow)
  | .contentLength =>
    setAttr attrs .contentLength (.num (jsNumber (ctx.request.headersGet "content-length")))
  | .status =>
    if ctx.setStatus.truthy then
      setAttr attrs .status (.statusVal ctx.setStatus.value)
    else attrs
  | .referer =>
    setAttr attrs .referer (.str (jsOrStr (ctx.request.headersGet "referer") "<referer?>"))
  | .userAgent =>
    setAttr attrs .userAgent (.str (jsOrStr (ctx.request.headersGet "user-agent") "<user-agent?>"))
  | .duration =>
    setAttr attrs .duration (.bigint (Int.tdiv (clock.hrtimeNow - timeStart) 1000))

/-- `buildAttrs` from `src/utils.ts`: folds the requested keys over an
initially empty attribute object.  `timeStart` is the captured request
start (`store.logestic_timeStart`); the `duration` case reads
`process.hrtime.bigint()` and the `time` case reads `new Date()` from
`clock`.  BigInt division `(now - timeStart) / 1000n` truncates toward
zero, which is `Int.tdiv`. -/
def buildAttrs (ctx : ContextModel) (reqAttrs : List AttrKey)
    (timeStart : Int) (clock : Clock) : AttrMap :=
  reqAttrs.foldl (buildAttrsStep ctx timeStart clock) []

/-! ## Destinations, options, and the `Logestic` class state -/

/-- A `BunFile` destination as used by the library: one of the standard
streams, or a file known by its path. -/
inductive Dest where
  | stdin
  | stdout
  | stderr
  | file (name : String)
deriving DecidableEq, Repr

/-- `dest.name` in Bun: the standard streams carry no file name, a file
destination carries its path. -/
def Dest.name : Dest → Option String
  | .stdin => none
  | .stdout => none
  | .stderr => none
  | .file n => some n

/-- `LogesticOptions` from `src/types.ts`: every field is optional. -/
structure LogesticOptions where
  dest : Option Dest := none
  showLevel : Option Bool := none
  logLevelColour : Option LogLevelColour := none
  httpLogging : Option Bool := none
  explicitLogging : Option Bool := none

/-- The private fields of a constructed `Logestic` instance. -/
structure LogesticState where
  requestedAttrs : List AttrKey
  dest : Dest
  showLevel : Bool
  logLevelColour : LogLevelColour
  httpLogging : Bool
  explicitLogging : Bool
deriving Repr

/-- An observable write performed by the library: `Bun.write` to a standard
stream, or `fs.appendFile` to a named file. -/
inductive WriteEvent where
  | stream (d : Dest) (bytes : String)
  | fileAppend (name : String) (bytes : String)
deriving DecidableEq, Repr

namespace Logestic

/-- `Logestic.setDest`: rejects `Bun.stdin` by throwing; accepts the
standard output streams directly; for a custom file destination the
asynchronous create-if-absent side effect has no bearing on the resolved
destination value. -/
def setDest (dest : Dest) : Except String Dest :=
  if dest = Dest.stdin then
    Except.error "Cannot log to stdin. Please provide a writable destination."
  else
    Except.ok dest

/-- The `Logestic` constructor: `requestedAttrs` starts empty,
`showLevel := options.showLevel || false`,
`logLevelColour := options.logLevelColour || {}`,
`httpLogging := options.httpLogging || true`,
`explicitLogging := options.explicitLogging || true`,
then `setDest(options.dest || Bun.stdout)` (a thrown error is surfaced as
`Except.error`). -/
def construct (options : LogesticOptions) : Except String LogesticState :=
  match setDest (options.dest.getD Dest.stdout) with
  | Except.error e => Except.error e
  | Except.ok d =>
    Except.ok
      { requestedAttrs := []
        dest := d
        showLevel := jsOrBool options.showLevel false
        logLevelColour := options.logLevelColour.getD {}
        httpLogging := jsOrBool options.httpLogging true
        explicitLogging := jsOrBool options.explicitLogging true }

/-- `Logestic.log` (private): returns the write events the call performs.
Empty messages are ignored; a destination without a (non-empty) file name
is a standard stream and receives the message plus newline verbatim;
a file destination receives the sanitised (`removeAnsi`) bytes via
`fs.appendFile`. -/
def log (st : LogesticState) (msg : String) : List WriteEvent :=
  if msg = "" then []
  else
    let msgNewLine := msg ++ "\n"
    match st.dest.name with
    | none => [WriteEvent.stream st.dest msgNewLine]
    | some n =>
      if n = "" then [WriteEvent.stream st.dest msgNewLine]
      else [WriteEvent.fileAppend n (removeAnsi msgNewLine)]

/-- `Logestic.info`: returns without logging when the instance's
`explicitLogging` field is false; otherwise optionally prefixes the
colourized level tag and delegates to `log`. -/
def info (st : LogesticState) (msg : String) : List WriteEvent :=
  if !st.explicitLogging then []
  else
    log st (if st.showLevel then colourLogType .info st.logLevelColour ++ " " ++ msg else msg)

/-- `Logestic.warn`: as `info` with the `warn` tag. -/
def warn (st : LogesticState) (msg : String) : List WriteEvent :=
  if !st.explicitLogging then []
  else
    log st (if st.showLevel then colourLogType .warn st.logLevelColour ++ " " ++ msg else msg)

/-- `Logestic.debug`: as `info` with the `debug` tag. -/
def debug (st : LogesticState) (msg : String) : List WriteEvent :=
  if !st.explicitLogging then []
  else
    log st (if st.showLevel then colourLogType .debug st.logLevelColour ++ " " ++ msg else msg)

/-- `Logestic.error`: as `info` with the `error` tag. -/
def error (st : LogesticState) (msg : String) : List WriteEvent :=
  if !st.explicitLogging then []
  else
    log st (if st.showLevel then colourLogType .error st.logLevelColour ++ " " ++ msg else msg)

/-- `Logestic.use` (array overload): pushes the requested attribute keys
onto `requestedAttrs`. -/
def use (st : LogesticState) (attrs : List AttrKey) : LogesticState :=
  { st with requestedAttrs := st.requestedAttrs ++ attrs }

/-- The `onAfterResponse` hook installed by `Logestic.format` (registered
`as: "global"`): returns early when `httpLogging` is false, otherwise
builds the attributes from the context and the captured start time,
formats them with the caller's `onSuccess`, optionally prefixes the `http`
tag, and logs. -/
def onAfterResponseHook (st : LogesticState) (onSuccess : AttrMap → String)
    (ctx : ContextModel) (timeStart : Int) (clock : Clock) : List WriteEvent :=
  if !st.httpLogging then []
  else
    let attrs := buildAttrs ctx st.requestedAttrs timeStart clock
    let msg := onSuccess attrs
    log st (if st.showLevel then colourLogType .http st.logLevelColour ++ " " ++ msg else msg)

/-- The `{ request, error, code, datetime }` record handed to a caller's
`onFailure` callback by the `onError` hook. -/
structure FailureCtx where
  request : RequestModel
  errMsg : String
  code : String
  datetime : Int

/-- The `onError` hook installed by `Logestic.format` (registered
`as: "global"`): formats the failure with the caller's `onFailure`,
optionally prefixes the `error` tag, and logs — with no check of
`httpLogging`. -/
def onErrorHook (st : LogesticState) (onFailure : FailureCtx → String)
    (fc : FailureCtx) : List WriteEvent :=
  let msg := onFailure fc
  log st (if st.showLevel then colourLogType .error st.logLevelColour ++ " " ++ msg else msg)

end Logestic


/-! ## Properties of the attribute map operations -/

theorem getAttr_nil (k : AttrKey) : getAttr [] k = none := rfl

theorem getAttr_cons (p : AttrKey × AttrValue) (rest : AttrMap) (k : AttrKey) :
    getAttr (p :: rest) k = if p.1 = k then some p.2 else getAttr rest k := rfl

theorem getAttr_overwriteMap_ne {k k' : AttrKey} (v : AttrValue) (h : k ≠ k') :
    ∀ m : AttrMap,
      getAttr (m.map fun p => if p.1 = k then (k, v) else p) k' = getAttr m k' := by
  intro m
  induction m with
  | nil => rfl
  | cons p rest ih =>
    by_cases hp : p.1 = k
    · rw [List.map_cons, if_pos hp, getAttr_cons, getAttr_cons, ih]
      rw [if_neg h, if_neg (fun hh : p.1 = k' => h (hp ▸ hh))]
    · rw [List.map_cons, if_neg hp, getAttr_cons, getAttr_cons, ih]

theorem getAttr_overwriteMap_eq {k : AttrKey} (v : AttrValue) :
    ∀ m : AttrMap, (m.any fun p => decide (p.1 = k)) = true →
      getAttr (m.map fun p => if p.1 = k then (k, v) else p) k = some v := by
  intro m
  induction m with
  | nil => intro h; cases h
  | cons p rest ih =>
    intro h
    by_cases hp : p.1 = k
    · rw [List.map_cons, if_pos hp, getAttr_cons, if_pos rfl]
    · have h' : (rest.any fun p => decide (p.1 = k)) = true := by
        simpa [List.any_cons, hp] using h
      rw [List.map_cons, if_neg hp, getAttr_cons, if_neg hp]
      exact ih h'

theorem getAttr_append_single_of_not_any {k : AttrKey} (v : AttrValue) :
    ∀ m : AttrMap, (m.any fun p => decide (p.1 = k)) = false → ∀ k',
      getAttr (m ++ [(k, v)]) k' = if k = k' then some v else getAttr m k' := by
  intro m
  induction m with
  | nil =>
    intro _ k'
    by_cases h : k = k' <;> simp [getAttr_cons, getAttr_nil, h]
  | cons p rest ih =>
    intro hany k'
    simp only [List.any_cons, Bool.or_eq_false_iff, decide_eq_false_iff_not] at hany
    obtain ⟨hp, hrest⟩ := hany
    rw [List.cons_append, getAttr_cons, getAttr_cons]
    by_cases hpk' : p.1 = k'
    · rw [if_pos hpk', if_neg (fun hh : k = k' => hp (hpk'.trans hh.symm)), if_pos hpk']
    · rw [if_neg hpk', if_neg hpk', ih (by simpa using hrest) k']

/-- Reading back through a JavaScript property assignment. -/
theorem getAttr_setAttr (m : AttrMap) (k k' : AttrKey) (v : AttrValue) :
    getAttr (setAttr m k v) k' = if k = k' then some v else getAttr m k' := by
  unfold setAttr
  by_cases hany : (m.any fun p => decide (p.1 = k)) = true
  · rw [if_pos hany]
    by_cases h : k = k'
    · subst h; rw [if_pos rfl]; exact getAttr_overwriteMap_eq v m hany
    · rw [if_neg h]; exact getAttr_overwriteMap_ne v h m
  · rw [if_neg hany]
    exact getAttr_append_single_of_not_any v m (Bool.eq_false_iff.mpr hany) k'

/-- A key is present exactly when reading it yields a value. -/
theorem mem_attrKeys_iff (m : AttrMap) (k : AttrKey) :
    k ∈ attrKeys m ↔ getAttr m k ≠ none := by
  induction m with
  | nil => simp [attrKeys, getAttr_nil]
  | cons p rest ih =>
    simp only [attrKeys, List.map_cons, List.mem_cons, getAttr_cons]
    by_cases hp : p.1 = k
    · simp [hp]
    · simp only [if_neg hp]
      constructor
      · intro h
        rcases h with h | h
        · exact absurd h.symm hp
        · exact (ih.mp (by simpa [attrKeys] using h))
      · intro h
        right
        simpa [attrKeys] using ih.mpr h

theorem attrKeys_overwriteMap (m : AttrMap) (k : AttrKey) (v : AttrValue) :
    attrKeys (m.map fun p => if p.1 = k then (k, v) else p) = attrKeys m := by
  unfold attrKeys
  rw [List.map_map]
  apply List.map_congr_left
  intro p _
  by_cases hp : p.1 = k <;> simp [Function.comp, hp]

/-- `setAttr` never introduces a duplicate key. -/
theorem attrKeys_nodup_setAttr (m : AttrMap) (k : AttrKey) (v : AttrValue)
    (h : (attrKeys m).Nodup) : (attrKeys (setAttr m k v)).Nodup := by
  unfold setAttr
  by_cases hany : (m.any fun p => decide (p.1 = k)) = true
  · rw [if_pos hany, attrKeys_overwriteMap]
    exact h
  · rw [if_neg hany]
    unfold attrKeys
    rw [List.map_append]
    simp only [List.map_cons, List.map_nil]
    rw [List.nodup_append]
    refine ⟨h, List.nodup_singleton _, ?_⟩
    intro a ha hb
    simp only [List.mem_singleton] at hb
    subst hb
    rcases List.mem_map.mp ha with ⟨q, hq, hqk⟩
    exact hany (List.any_eq_true.mpr ⟨q, hq, by simpa using hqk⟩)

/-! ## Characterisation of `buildAttrs` -/

/-- The value the `switch` in `buildAttrs` stores for each key (for
`status`, the value it stores when the status is truthy). -/
def attrValueFor (ctx : ContextModel) (timeStart : Int) (clock : Clock) :
    AttrKey → AttrValue
  | .ip => .str (jsOrStr (ctx.request.headersGet "x-forwarded-for") "<ip?>")
  | .method => .str ctx.request.method
  | .path => .str ctx.path
  | .body => .jsBody ctx.body
  | .query => .jsQuery ctx.query
  | .time => .date clock.dateNow
  | .contentLength => .num (jsNumber (ctx.request.headersGet "content-length"))
  | .status => .statusVal ctx.setStatus.value
  | .referer => .str (jsOrStr (ctx.request.headersGet "referer") "<referer?>")
  | .userAgent => .str (jsOrStr (ctx.request.headersGet "user-agent") "<user-agent?>")
  | .duration => .bigint (Int.tdiv (clock.hrtimeNow - timeStart) 1000)

/-- Every `switch` case either skips (`status` when falsy) or assigns the
key its value. -/
theorem buildAttrsStep_char (ctx : ContextModel) (timeStart : Int) (clock : Clock)
    (attrs : AttrMap) (k : AttrKey) :
    buildAttrsStep ctx timeStart clock attrs k =
      if k = AttrKey.status ∧ ¬ctx.setStatus.truthy then attrs
      else setAttr attrs k (attrValueFor ctx timeStart clock k) := by
  cases k with
  | status =>
    by_cases ht : ctx.setStatus.truthy
    · rw [if_neg (fun h => h.2 ht)]
      simp [buildAttrsStep, attrValueFor, ht]
    · rw [if_pos ⟨rfl, ht⟩]
      simp [buildAttrsStep, ht]
  | ip => rw [if_neg (fun h => AttrKey.noConfusion h.1)]; rfl
  | method => rw [if_neg (fun h => AttrKey.noConfusion h.1)]; rfl
  | path => rw [if_neg (fun h => AttrKey.noConfusion h.1)]; rfl
  | body => rw [if_neg (fun h => AttrKey.noConfusion h.1)]; rfl
  | query => rw [if_neg (fun h => AttrKey.noConfusion h.1)]; rfl
  | time => rw [if_neg (fun h => AttrKey.noConfusion h.1)]; rfl
  | contentLength => rw [if_neg (fun h => AttrKey.noConfusion h.1)]; rfl
  | referer => rw [if_neg (fun h => AttrKey.noConfusion h.1)]; rfl
  | userAgent => rw [if_neg (fun h => AttrKey.noConfusion h.1)]; rfl
  | duration => rw [if_neg (fun h => AttrKey.noConfusion h.1)]; rfl

/-- Reading a key after the whole requested-attribute loop, starting from
an arbitrary partial map. -/
theorem getAttr_buildAttrs_foldl (ctx : ContextModel) (timeStart : Int) (clock : Clock) :
    ∀ (L : List AttrKey) (m : AttrMap) (k : AttrKey),
      getAttr (L.foldl (buildAttrsStep ctx timeStart clock) m) k =
        if k ∈ L ∧ (k = AttrKey.status → ctx.setStatus.truthy) then
          some (attrValueFor ctx timeStart clock k)
        else getAttr m k := by
  intro L
  induction L with
  | nil => intro m k; simp
  | cons a L ih =>
    intro m k
    rw [List.foldl_cons, ih, buildAttrsStep_char]
    by_cases hkL : k ∈ L ∧ (k = AttrKey.status → ctx.setStatus.truthy = true)
    · rw [if_pos hkL, if_pos ⟨List.mem_cons_of_mem a hkL.1, hkL.2⟩]
    · rw [if_neg hkL]
      by_cases hskip : a = AttrKey.status ∧ ¬ctx.setStatus.truthy = true
      · rw [if_pos hskip]
        have : ¬(k ∈ a :: L ∧ (k = AttrKey.status → ctx.setStatus.truthy = true)) := by
          intro ⟨hmem, hcond⟩
          rcases List.mem_cons.mp hmem with h | h
          · exact hskip.2 (hcond (h.trans hskip.1))
          · exact hkL ⟨h, hcond⟩
        rw [if_neg this]
      · rw [if_neg hskip, getAttr_setAttr]
        by_cases hak : a = k
        · subst hak
          have hcond : a = AttrKey.status → ctx.setStatus.truthy = true := by
            intro hs
            by_contra hnt
            exact hskip ⟨hs, hnt⟩
          rw [if_pos rfl, if_pos ⟨List.mem_cons_self a L, hcond⟩]
        · rw [if_neg hak]
          have : ¬(k ∈ a :: L ∧ (k = AttrKey.status → ctx.setStatus.truthy = true)) := by
            intro ⟨hmem, hcond⟩
            rcases List.mem_cons.mp hmem with h | h
            · exact hak h.symm
            · exact hkL ⟨h, hcond⟩
          rw [if_neg this]

/-- The key list stays duplicate-free through the whole loop. -/
theorem attrKeys_nodup_buildAttrs_foldl (ctx : ContextModel) (timeStart : Int)
    (clock : Clock) :
    ∀ (L : List AttrKey) (m : AttrMap), (attrKeys m).Nodup →
      (attrKeys (L.foldl (buildAttrsStep ctx timeStart clock) m)).Nodup := by
  intro L
  induction L with
  | nil => intro m h; exact h
  | cons a L ih =>
    intro m h
    rw [List.foldl_cons]
    apply ih
    rw [buildAttrsStep_char]
    by_cases hskip : a = AttrKey.status ∧ ¬ctx.setStatus.truthy = true
    · rw [if_pos hskip]; exact h
    · rw [if_neg hskip]; exact attrKeys_nodup_setAttr m a _ h

/-! ## Concrete fixtures used by witnesses and counterexamples -/

/-- A request with no headers set. -/
def reqNoHeaders : RequestModel :=
  { headersGet := fun _ => none, method := "GET" }

/-- A request whose every header is present but empty. -/
def reqEmptyHeaders : RequestModel :=
  { headersGet := fun _ => some "", method := "GET" }

/-- A completed request context with no headers and status 200. -/
def ctxNoHeaders : ContextModel :=
  { request := reqNoHeaders, path := "/health", body := "", query := [],
    setStatus := .num 200 }

/-- A context whose headers are present but empty. -/
def ctxEmptyHeaders : ContextModel :=
  { request := reqEmptyHeaders, path := "/health", body := "", query := [],
    setStatus := .num 200 }

/-- A context whose response status was explicitly assigned the number 0. -/
def ctxStatusZero : ContextModel :=
  { request := reqNoHeaders, path := "/", body := "", query := [],
    setStatus := .num 0 }

/-- A fixed clock: extraction happens 5000 ns after the epoch of the test. -/
def clk0 : Clock := { hrtimeNow := 5000, dateNow := 0 }

/-! ## Claim theorems -/

/-- C1: the claim states that `info`/`warn`/`debug`/`error` are no-ops on an
instance constructed with `explicitLogging = false`.  The code is wrong: the
constructor computes `options.explicitLogging || true`, which is `true` even
for an explicit `false`, so the flag can never be disabled and `info` still
writes.  This theorem evaluates the code at the failing input: constructing
with `explicitLogging = false` yields an instance whose flag is `true` and
whose `info`, `warn`, `debug` and `error` calls each write one line. -/
theorem C1_explicitLogging_false_still_logs :
    (Logestic.construct { explicitLogging := some false }).map
        (fun st => (st.explicitLogging,
          Logestic.info st "hello", Logestic.warn st "hello",
          Logestic.debug st "hello", Logestic.error st "hello")) =
      Except.ok (true,
        [WriteEvent.stream Dest.stdout "hello\n"],
        [WriteEvent.stream Dest.stdout "hello\n"],
        [WriteEvent.stream Dest.stdout "hello\n"],
        [WriteEvent.stream Dest.stdout "hello\n"]) := by
  rfl

/-- C2: the claim states that an instance constructed with
`httpLogging = false` never logs a completed request from the
`onAfterResponse` hook.  The code is wrong in the same way as for C1
(`options.httpLogging || true` is always `true`), contradicting the code's
own doc comment on `format` ("Successful requests will not log if
httpLogging is disabled").  Constructing with `httpLogging = false` yields
an instance whose flag is `true`, and its `onAfterResponse` hook writes a
log line for a completed request. -/
theorem C2_httpLogging_false_still_logs :
    (Logestic.construct { httpLogging := some false }).map
        (fun st => (st.httpLogging,
          Logestic.onAfterResponseHook st (fun _ => "GET /health") ctxNoHeaders 0 clk0)) =
      Except.ok (true, [WriteEvent.stream Dest.stdout "GET /health\n"]) := by
  rfl

/-- C7: constructing a Logestic instance with destination standard input
throws immediately, for every combination of the other options. -/
theorem C7_construct_stdin_throws (options : LogesticOptions)
    (h : options.dest = some Dest.stdin) :
    Logestic.construct options =
      Except.error "Cannot log to stdin. Please provide a writable destination." := by
  unfold Logestic.construct Logestic.setDest
  rw [h]
  rfl

/-- Witness for C7 at a concrete input. -/
theorem C7_construct_stdin_throws_witness :
    Logestic.construct { dest := some Dest.stdin, showLevel := some true } =
      Except.error "Cannot log to stdin. Please provide a writable destination." :=
  C7_construct_stdin_throws { dest := some Dest.stdin, showLevel := some true } rfl

/-- JavaScript `header || placeholder` substitutes the placeholder both for
a missing header and for a present-but-empty one. -/
theorem jsOrStr_falsy {o : Option String} (d : String)
    (h : o = none ∨ o = some "") : jsOrStr o d = d := by
  rcases h with h | h <;> simp [jsOrStr, h]

/-- C3 counterexample: with the `content-length` header absent, the
recorded `contentLength` value is the number 0 (`Number(null)`), not NaN as
the claim states. -/
theorem C3_contentLength_absent_is_zero :
    getAttr (buildAttrs ctxNoHeaders [AttrKey.contentLength] 0 clk0)
        AttrKey.contentLength = some (.num (.num 0)) ∧
      JsNum.num 0 ≠ JsNum.nan := by
  constructor
  · rfl
  · decide

/-- C3 amended: whenever `contentLength` is requested, its value is the
JavaScript numeric conversion of the `content-length` header — `0` when the
header is absent (`Number(null) = 0`), NaN when it is present but not
numeric — and extraction is a total function (never an error). -/
theorem C3_contentLength_amended (ctx : ContextModel) (L : List AttrKey)
    (t : Int) (clk : Clock) (hL : AttrKey.contentLength ∈ L) :
    getAttr (buildAttrs ctx L t clk) AttrKey.contentLength =
      some (.num (jsNumber (ctx.request.headersGet "content-length"))) ∧
    (ctx.request.headersGet "content-length" = none →
      getAttr (buildAttrs ctx L t clk) AttrKey.contentLength =
        some (.num (.num 0))) := by
  have hmain : getAttr (buildAttrs ctx L t clk) AttrKey.contentLength =
      some (.num (jsNumber (ctx.request.headersGet "content-length"))) := by
    unfold buildAttrs
    rw [getAttr_buildAttrs_foldl,
      if_pos ⟨hL, fun hs => AttrKey.noConfusion hs⟩]
    rfl
  refine ⟨hmain, fun habsent => ?_⟩
  rw [hmain, habsent]
  rfl

/-- Witness for C3's amended claim at a concrete context with no headers. -/
theorem C3_contentLength_amended_witness :
    getAttr (buildAttrs ctxNoHeaders [AttrKey.contentLength] 0 clk0)
        AttrKey.contentLength = some (.num (.num 0)) :=
  (C3_contentLength_amended ctxNoHeaders [AttrKey.contentLength] 0 clk0
    (by decide)).2 rfl

/-- C5 counterexample: a response status explicitly set to the number 0 is
set (not unset), yet the `status` key is omitted, because the code tests
JavaScript truthiness (`if (!set.status) break`), not presence. -/
theorem C5_status_zero_dropped :
    buildAttrs ctxStatusZero [AttrKey.status] 0 clk0 = [] ∧
      ctxStatusZero.setStatus ≠ SetStatus.undef := by
  constructor
  · rfl
  · decide

/-- C5 amended: the attribute set contains exactly the requested keys, each
at most once, except that `status` is omitted whenever the response status
is falsy — unset, the number 0, or the empty string — rather than only when
unset. -/
theorem C5_keys_exact_amended (ctx : ContextModel) (L : List AttrKey)
    (t : Int) (clk : Clock) :
    (attrKeys (buildAttrs ctx L t clk)).Nodup ∧
    ∀ k, k ∈ attrKeys (buildAttrs ctx L t clk) ↔
      k ∈ L ∧ (k = AttrKey.status → ctx.setStatus.truthy = true) := by
  constructor
  · exact attrKeys_nodup_buildAttrs_foldl ctx t clk L [] (by simp [attrKeys])
  · intro k
    unfold buildAttrs
    rw [mem_attrKeys_iff, getAttr_buildAttrs_foldl]
    by_cases h : k ∈ L ∧ (k = AttrKey.status → ctx.setStatus.truthy = true)
    · rw [if_pos h]
      exact ⟨fun _ => h, fun _ => by simp⟩
    · rw [if_neg h]
      simp [getAttr_nil, h]

/-- Witness for C5's amended claim: with a duplicate request and a truthy
status, the key set is exactly the requested set. -/
theorem C5_keys_exact_amended_witness :
    AttrKey.ip ∈ attrKeys
      (buildAttrs ctxNoHeaders [AttrKey.ip, AttrKey.ip, AttrKey.status] 0 clk0) :=
  ((C5_keys_exact_amended ctxNoHeaders [AttrKey.ip, AttrKey.ip, AttrKey.status]
      0 clk0).2 AttrKey.ip).mpr ⟨by decide, by decide⟩

/-- C9: when `duration` is requested and extraction happens no earlier than
the captured start time, the recorded duration is the nanosecond difference
divided by 1000 (BigInt division, truncated) — i.e. microseconds — and it
is non-negative. -/
theorem C9_duration_microseconds_nonneg (ctx : ContextModel) (L : List AttrKey)
    (t0 : Int) (clk : Clock) (hL : AttrKey.duration ∈ L)
    (h : t0 ≤ clk.hrtimeNow) :
    getAttr (buildAttrs ctx L t0 clk) AttrKey.duration =
      some (.bigint (Int.tdiv (clk.hrtimeNow - t0) 1000)) ∧
    0 ≤ Int.tdiv (clk.hrtimeNow - t0) 1000 := by
  constructor
  · unfold buildAttrs
    rw [getAttr_buildAttrs_foldl,
      if_pos ⟨hL, fun hs => AttrKey.noConfusion hs⟩]
    rfl
  · exact Int.tdiv_nonneg (by omega) (by norm_num)

/-- Witness for C9: start 0 ns, extraction 5000 ns, duration 5 µs. -/
theorem C9_duration_witness :
    getAttr (buildAttrs ctxNoHeaders [AttrKey.duration] 0 clk0)
        AttrKey.duration =
      some (.bigint (Int.tdiv (clk0.hrtimeNow - 0) 1000)) ∧
    0 ≤ Int.tdiv (clk0.hrtimeNow - 0) 1000 :=
  C9_duration_microseconds_nonneg ctxNoHeaders [AttrKey.duration] 0 clk0
    (by decide) (by decide)

/-- C10: the `ip`, `referer` and `userAgent` extractors substitute the same
placeholder for a present-but-empty header as for a missing one, because
`headers.get(...) || placeholder` treats the empty string as falsy. -/
theorem C10_empty_header_like_missing (ctx : ContextModel) (t : Int) (clk : Clock) :
    ((ctx.request.headersGet "x-forwarded-for" = none ∨
        ctx.request.headersGet "x-forwarded-for" = some "") →
      getAttr (buildAttrs ctx [AttrKey.ip] t clk) AttrKey.ip =
        some (.str "<ip?>")) ∧
    ((ctx.request.headersGet "referer" = none ∨
        ctx.request.headersGet "referer" = some "") →
      getAttr (buildAttrs ctx [AttrKey.referer] t clk) AttrKey.referer =
        some (.str "<referer?>")) ∧
    ((ctx.request.headersGet "user-agent" = none ∨
        ctx.request.headersGet "user-agent" = some "") →
      getAttr (buildAttrs ctx [AttrKey.userAgent] t clk) AttrKey.userAgent =
        some (.str "<user-agent?>")) := by
  refine ⟨fun h => ?_, fun h => ?_, fun h => ?_⟩ <;>
    · unfold buildAttrs
      rw [getAttr_buildAttrs_foldl,
        if_pos ⟨by decide, fun hs => AttrKey.noConfusion hs⟩]
      simp [attrValueFor, jsOrStr_falsy _ h]

/-- Witness for C10 with every header present but empty. -/
theorem C10_empty_header_witness :
    getAttr (buildAttrs ctxEmptyHeaders [AttrKey.ip] 0 clk0) AttrKey.ip =
        some (.str "<ip?>") ∧
    getAttr (buildAttrs ctxEmptyHeaders [AttrKey.referer] 0 clk0)
        AttrKey.referer = some (.str "<referer?>") ∧
    getAttr (buildAttrs ctxEmptyHeaders [AttrKey.userAgent] 0 clk0)
        AttrKey.userAgent = some (.str "<user-agent?>") :=
  ⟨(C10_empty_header_like_missing ctxEmptyHeaders 0 clk0).1 (Or.inr rfl),
   (C10_empty_header_like_missing ctxEmptyHeaders 0 clk0).2.1 (Or.inr rfl),
   (C10_empty_header_like_missing ctxEmptyHeaders 0 clk0).2.2 (Or.inr rfl)⟩

/-- A default instance logging to standard output. -/
def stStdout : LogesticState :=
  { requestedAttrs := [], dest := .stdout, showLevel := false,
    logLevelColour := {}, httpLogging := true, explicitLogging := true }

/-- An instance whose `httpLogging` field is false (unreachable through the
constructor because of the C1/C2 defect, but exactly the configuration the
claim about failure logging quantifies over). -/
def stHttpFalse : LogesticState :=
  { requestedAttrs := [], dest := .stdout, showLevel := false,
    logLevelColour := {}, httpLogging := false, explicitLogging := true }

/-- A concrete failure context. -/
def fcNotFound : Logestic.FailureCtx :=
  { request := reqNoHeaders, errMsg := "boom", code := "NOT_FOUND", datetime := 0 }

/-- A level-tag-prefixed message is never the empty string. -/
theorem tagged_msg_ne_empty (tag m : String) : tag ++ " " ++ m ≠ "" := by
  intro hcontra
  have := congrArg String.length hcontra
  simp only [String.length_append] at this
  have hsp : (" " : String).length = 1 := rfl
  rw [hsp] at this
  simp at this

/-- C6: the `onError` hook logs the failure exactly once — it performs one
write whenever the formatted message is non-empty — for every instance
state, in particular regardless of the `httpLogging` flag, which the hook
never consults. -/
theorem C6_onError_always_logs (st : LogesticState)
    (onFailure : Logestic.FailureCtx → String) (fc : Logestic.FailureCtx)
    (h : onFailure fc ≠ "") :
    (Logestic.onErrorHook st onFailure fc).length = 1 := by
  unfold Logestic.onErrorHook Logestic.log
  have hne : (if st.showLevel then
      colourLogType .error st.logLevelColour ++ " " ++ onFailure fc
      else onFailure fc) ≠ "" := by
    split
    · exact tagged_msg_ne_empty _ _
    · exact h
  rw [if_neg hne]
  cases hdn : st.dest.name with
  | none => rfl
  | some n =>
    dsimp only
    split <;> rfl

/-- Witness for C6 on an instance with `httpLogging = false`. -/
theorem C6_onError_always_logs_witness :
    (Logestic.onErrorHook stHttpFalse (fun fc => "error: " ++ fc.errMsg)
        fcNotFound).length = 1 :=
  C6_onError_always_logs stHttpFalse (fun fc => "error: " ++ fc.errMsg)
    fcNotFound (by decide)

/-- C8 counterexample: the claim says a blank (whitespace-only) message is
a no-op, but `log` only tests for the empty string, so a single-space
message is written (two bytes: the space and the newline). -/
theorem C8_blank_message_written :
    Logestic.log stStdout " " = [WriteEvent.stream Dest.stdout " \n"] := by
  rfl

/-- C8 amended: only the exactly-empty message is ignored (a no-op with
zero writes); every non-empty message — including whitespace-only ones —
produces exactly one write: the message plus exactly one trailing newline
for a stream destination, and `removeAnsi` of the message plus newline
appended to a file destination. -/
theorem C8_empty_only_skipped (st : LogesticState) (msg : String) :
    (msg = "" → Logestic.log st msg = []) ∧
    (msg ≠ "" →
      (Logestic.log st msg).length = 1 ∧
      (st.dest.name = none →
        Logestic.log st msg = [WriteEvent.stream st.dest (msg ++ "\n")]) ∧
      (∀ n, st.dest.name = some n → n ≠ "" →
        Logestic.log st msg =
          [WriteEvent.fileAppend n (removeAnsi (msg ++ "\n"))])) := by
  constructor
  · intro h
    unfold Logestic.log
    rw [if_pos h]
  · intro h
    unfold Logestic.log
    rw [if_neg h]
    refine ⟨?_, ?_, ?_⟩
    · cases hdn : st.dest.name with
      | none => rfl
      | some n =>
        dsimp only
        split <;> rfl
    · intro hdn
      rw [hdn]
    · intro n hdn hn
      rw [hdn]
      dsimp only
      rw [if_neg hn]

/-- Witness for C8's amended claim on a stream destination. -/
theorem C8_empty_only_skipped_witness :
    Logestic.log stStdout "a" = [WriteEvent.stream stStdout.dest ("a" ++ "\n")] :=
  ((C8_empty_only_skipped stStdout "a").2 (by decide)).2.1 rfl

/-- A file-destination instance with level display and a hex colour
override for the `error` level. -/
def stC4hex : LogesticState :=
  { requestedAttrs := [], dest := .file "app.log", showLevel := true,
    logLevelColour := { error := some "#ff0000" }, httpLogging := true,
    explicitLogging := true }

/-- A file-destination instance with level display and the default
colours. -/
def stFileDefault : LogesticState :=
  { requestedAttrs := [], dest := .file "app.log", showLevel := true,
    logLevelColour := {}, httpLogging := true, explicitLogging := true }

/-- C4 counterexample: with a `logLevelColour` override, the level tag is
coloured by `chalk.hex`, whose 24-bit open sequence `ESC[38;2;r;g;bm`
contains semicolons and therefore does not match `removeAnsi`'s pattern
`ESC[<digits>m`; the bytes appended to the file still contain the escape
character. -/
theorem C4_hex_override_reaches_file :
    Logestic.error stC4hex "boom" =
      [WriteEvent.fileAppend "app.log"
        (ansiCode "38;2;255;0;0" ++ " ERROR  boom\n")] ∧
    escChar ∈ (ansiCode "38;2;255;0;0" ++ " ERROR  boom\n").data := by
  constructor
  · rfl
  · decide

/-- Scanning a default-colour level tag followed by an escape-free message:
the two `ESC[<digits>m` sequences produced by the basic background style
are removed and everything else passes through. -/
theorem stripAnsi_default_tag (t : LogType) (msg : String)
    (hesc : escChar ∉ msg.data) :
    stripAnsi ((chalkBg (defaultBgCode t) (" " ++ t.toUpperCase ++ " ")
        ++ " " ++ msg ++ "\n").data) =
      (" " ++ t.toUpperCase ++ " ").data ++ (' ' :: (msg.data ++ ['\n'])) := by
  have hrest : escChar ∉ (' ' :: (msg.data ++ ['\n'])) := by
    intro h
    rcases List.mem_cons.mp h with h | h
    · exact absurd h.symm (by decide)
    · rcases List.mem_append.mp h with h | h
      · exact hesc h
      · simp only [List.mem_singleton] at h
        exact absurd h (by decide)
  cases t with
  | http =>
    show stripAnsi (escChar :: '[' :: '4' :: '4' :: 'm' ::
        ([' ', 'H', 'T', 'T', 'P', ' '] ++ (escChar :: '[' :: '4' :: '9' :: 'm' ::
          (' ' :: (msg.data ++ ['\n']))))) = _
    have hopen : matchAnsi (escChar :: '[' :: '4' :: '4' :: 'm' ::
        ([' ', 'H', 'T', 'T', 'P', ' '] ++ (escChar :: '[' :: '4' :: '9' :: 'm' ::
          (' ' :: (msg.data ++ ['\n']))))) =
        some ([' ', 'H', 'T', 'T', 'P', ' '] ++ (escChar :: '[' :: '4' :: '9' :: 'm' ::
          (' ' :: (msg.data ++ ['\n'])))) := rfl
    have hclose : matchAnsi (escChar :: '[' :: '4' :: '9' :: 'm' ::
        (' ' :: (msg.data ++ ['\n']))) = some (' ' :: (msg.data ++ ['\n'])) := rfl
    rw [stripAnsi_match hopen,
      stripAnsi_append_of_no_esc (by decide : escChar ∉ [' ', 'H', 'T', 'T', 'P', ' ']),
      stripAnsi_match hclose, stripAnsi_of_no_esc hrest]
    rfl
  | info =>
    show stripAnsi (escChar :: '[' :: '4' :: '2' :: 'm' ::
        ([' ', 'I', 'N', 'F', 'O', ' '] ++ (escChar :: '[' :: '4' :: '9' :: 'm' ::
          (' ' :: (msg.data ++ ['\n']))))) = _
    have hopen : matchAnsi (escChar :: '[' :: '4' :: '2' :: 'm' ::
        ([' ', 'I', 'N', 'F', 'O', ' '] ++ (escChar :: '[' :: '4' :: '9' :: 'm' ::
          (' ' :: (msg.data ++ ['\n']))))) =
        some ([' ', 'I', 'N', 'F', 'O', ' '] ++ (escChar :: '[' :: '4' :: '9' :: 'm' ::
          (' ' :: (msg.data ++ ['\n'])))) := rfl
    have hclose : matchAnsi (escChar :: '[' :: '4' :: '9' :: 'm' ::
        (' ' :: (msg.data ++ ['\n']))) = some (' ' :: (msg.data ++ ['\n'])) := rfl
    rw [stripAnsi_match hopen,
      stripAnsi_append_of_no_esc (by decide : escChar ∉ [' ', 'I', 'N', 'F', 'O', ' ']),
      stripAnsi_match hclose, stripAnsi_of_no_esc hrest]
    rfl
  | warn =>
    show stripAnsi (escChar :: '[' :: '4' :: '3' :: 'm' ::
        ([' ', 'W', 'A', 'R', 'N', ' '] ++ (escChar :: '[' :: '4' :: '9' :: 'm' ::
          (' ' :: (msg.data ++ ['\n']))))) = _
    have hopen : matchAnsi (escChar :: '[' :: '4' :: '3' :: 'm' ::
        ([' ', 'W', 'A', 'R', 'N', ' '] ++ (escChar :: '[' :: '4' :: '9' :: 'm' ::
          (' ' :: (msg.data ++ ['\n']))))) =
        some ([' ', 'W', 'A', 'R', 'N', ' '] ++ (escChar :: '[' :: '4' :: '9' :: 'm' ::
          (' ' :: (msg.data ++ ['\n'])))) := rfl
    have hclose : matchAnsi (escChar :: '[' :: '4' :: '9' :: 'm' ::
        (' ' :: (msg.data ++ ['\n']))) = some (' ' :: (msg.data ++ ['\n'])) := rfl
    rw [stripAnsi_match hopen,
      stripAnsi_append_of_no_esc (by decide : escChar ∉ [' ', 'W', 'A', 'R', 'N', ' ']),
      stripAnsi_match hclose, stripAnsi_of_no_esc hrest]
    rfl
  | debug =>
    show stripAnsi (escChar :: '[' :: '4' :: '6' :: 'm' ::
        ([' ', 'D', 'E', 'B', 'U', 'G', ' '] ++ (escChar :: '[' :: '4' :: '9' :: 'm' ::
          (' ' :: (msg.data ++ ['\n']))))) = _
    have hopen : matchAnsi (escChar :: '[' :: '4' :: '6' :: 'm' ::
        ([' ', 'D', 'E', 'B', 'U', 'G', ' '] ++ (escChar :: '[' :: '4' :: '9' :: 'm' ::
          (' ' :: (msg.data ++ ['\n']))))) =
        some ([' ', 'D', 'E', 'B', 'U', 'G', ' '] ++ (escChar :: '[' :: '4' :: '9' :: 'm' ::
          (' ' :: (msg.data ++ ['\n'])))) := rfl
    have hclose : matchAnsi (escChar :: '[' :: '4' :: '9' :: 'm' ::
        (' ' :: (msg.data ++ ['\n']))) = some (' ' :: (msg.data ++ ['\n'])) := rfl
    rw [stripAnsi_match hopen,
      stripAnsi_append_of_no_esc
        (by decide : escChar ∉ [' ', 'D', 'E', 'B', 'U', 'G', ' ']),
      stripAnsi_match hclose, stripAnsi_of_no_esc hrest]
    rfl
  | error =>
    show stripAnsi (escChar :: '[' :: '4' :: '1' :: 'm' ::
        ([' ', 'E', 'R', 'R', 'O', 'R', ' '] ++ (escChar :: '[' :: '4' :: '9' :: 'm' ::
          (' ' :: (msg.data ++ ['\n']))))) = _
    have hopen : matchAnsi (escChar :: '[' :: '4' :: '1' :: 'm' ::
        ([' ', 'E', 'R', 'R', 'O', 'R', ' '] ++ (escChar :: '[' :: '4' :: '9' :: 'm' ::
          (' ' :: (msg.data ++ ['\n']))))) =
        some ([' ', 'E', 'R', 'R', 'O', 'R', ' '] ++ (escChar :: '[' :: '4' :: '9' :: 'm' ::
          (' ' :: (msg.data ++ ['\n'])))) := rfl
    have hclose : matchAnsi (escChar :: '[' :: '4' :: '9' :: 'm' ::
        (' ' :: (msg.data ++ ['\n']))) = some (' ' :: (msg.data ++ ['\n'])) := rfl
    rw [stripAnsi_match hopen,
      stripAnsi_append_of_no_esc
        (by decide : escChar ∉ [' ', 'E', 'R', 'R', 'O', 'R', ' ']),
      stripAnsi_match hclose, stripAnsi_of_no_esc hrest]
    rfl

/-- C4 amended: for a non-empty, escape-free message prefixed with a level
tag in the *default* colours and logged to a file destination, the bytes
appended are `removeAnsi(message + newline)` and contain no ANSI escape
character.  (The original claim extended this to any `logLevelColour`
override; the counterexample shows a hex override's open sequence survives
`removeAnsi`, so the guarantee only holds for the default colours.) -/
theorem C4_default_colours_stripped (st : LogesticState) (n : String)
    (t : LogType) (msg : String)
    (hdest : st.dest = Dest.file n) (hn : n ≠ "")
    (hdefault : st.logLevelColour.get t = none)
    (hesc : escChar ∉ msg.data) :
    Logestic.log st (colourLogType t st.logLevelColour ++ " " ++ msg) =
      [WriteEvent.fileAppend n
        (removeAnsi (colourLogType t st.logLevelColour ++ " " ++ msg ++ "\n"))] ∧
    escChar ∉
      (removeAnsi (colourLogType t st.logLevelColour ++ " " ++ msg ++ "\n")).data := by
  have hcol : colourLogType t st.logLevelColour =
      chalkBg (defaultBgCode t) (" " ++ t.toUpperCase ++ " ") := by
    unfold colourLogType
    rw [hdefault]
  constructor
  · unfold Logestic.log
    rw [if_neg (tagged_msg_ne_empty _ _), hdest]
    dsimp only [Dest.name]
    rw [if_neg hn]
  · intro hmem
    rw [hcol] at hmem
    have hmem' : escChar ∈ stripAnsi ((chalkBg (defaultBgCode t)
        (" " ++ t.toUpperCase ++ " ") ++ " " ++ msg ++ "\n").data) :=
      List.dropWhile_subset _ hmem
    rw [stripAnsi_default_tag t msg hesc] at hmem'
    rcases List.mem_append.mp hmem' with h | h
    · have : escChar ∉ (" " ++ t.toUpperCase ++ " ").data := by
        cases t <;> exact (by decide)
      exact this h
    · rcases List.mem_cons.mp h with h | h
      · exact absurd h.symm (by decide)
      · rcases List.mem_append.mp h with h | h
        · exact hesc h
        · simp only [List.mem_singleton] at h
          exact absurd h (by decide)

/-- Witness for C4's amended claim: an `info` line with default colours
logged to a file. -/
theorem C4_default_colours_stripped_witness :
    Logestic.log stFileDefault
        (colourLogType .info stFileDefault.logLevelColour ++ " " ++ "ok") =
      [WriteEvent.fileAppend "app.log"
        (removeAnsi (colourLogType .info stFileDefault.logLevelColour
          ++ " " ++ "ok" ++ "\n"))] ∧
    escChar ∉ (removeAnsi (colourLogType .info stFileDefault.logLevelColour
      ++ " " ++ "ok" ++ "\n")).data :=
  C4_default_colours_stripped stFileDefault "app.log" LogType.info "ok"
    rfl (by decide) rfl (by decide)
